import Mathlib

/-!
Verification of the News-Feed repository's core logic (`src/App.js`).

The source is a React single-page news viewer.  Its core, framework-free
logic consists of:

* `convertGoogleDriveUrl` (App.js 12-16) — Drive link rewriting;
* `createSlug`            (App.js 18-20) — URL slug derivation;
* `parseDate`             (App.js 22-29) — `dd/mm/yyyy` token parsing via
  `Date.UTC`;
* `formatDate`            (App.js 31-34) — `toLocaleDateString('en-US',
  { timeZone: 'UTC' })` rendering;
* `parseGoogleDocArticles`(App.js 37-91) — marker-oriented article
  extraction from the document's flattened text;
* the merge / add / delete operations of the article store
  (App.js 101-155).

JavaScript strings are modelled as `List Char`; regular-expression matching
is modelled by hand-derived deterministic scanners that are faithful to the
backtracking semantics of the concrete patterns appearing in the source
(each derivation is justified in the corresponding doc comment).
JavaScript `Date` values are modelled as `Int` milliseconds since the epoch,
with `Date.UTC` modelled after ECMA-262 `MakeDay`/`MakeDate`/`MakeFullYear`.
-/

set_option maxRecDepth 4000

namespace NewsFeed

/-- ECMAScript `\s` character class (WhiteSpace ∪ LineTerminator):
TAB, LF, VT, FF, CR, SP, NBSP, OGHAM SP, U+2000-200A, LS, PS, NNBSP,
MMSP, IDEOGRAPHIC SP, ZWNBSP.  The same set is removed by
`String.prototype.trim`. -/
def jsWhitespace (c : Char) : Bool :=
  c.toNat = 0x09 ∨ c.toNat = 0x0A ∨ c.toNat = 0x0B ∨ c.toNat = 0x0C ∨
  c.toNat = 0x0D ∨ c.toNat = 0x20 ∨ c.toNat = 0xA0 ∨ c.toNat = 0x1680 ∨
  (0x2000 ≤ c.toNat ∧ c.toNat ≤ 0x200A) ∨
  c.toNat = 0x2028 ∨ c.toNat = 0x2029 ∨ c.toNat = 0x202F ∨
  c.toNat = 0x205F ∨ c.toNat = 0x3000 ∨ c.toNat = 0xFEFF

/-- `[0-9]`, i.e. the regex class `\d` (code points 48-57). -/
def isDigitChar (c : Char) : Bool :=
  48 ≤ c.toNat ∧ c.toNat ≤ 57

/-- ASCII lower-casing of a single character (`A`-`Z` are code points
65-90), as used by case-insensitive (`/i`) regex matching without the `u`
flag: ECMA-262 `Canonicalize` never lets a non-ASCII character match an
ASCII one, so folding `A`-`Z` is exact for the ASCII-only patterns in the
source. -/
def asciiLowerChar (c : Char) : Char :=
  if 65 ≤ c.toNat ∧ c.toNat ≤ 90 then Char.ofNat (c.toNat + 32) else c

/-- `startsWithLit pat l`: `l` begins with the literal characters `pat`
(case-sensitive). -/
def startsWithLit : List Char → List Char → Bool
  | [], _ => true
  | _ :: _, [] => false
  | p :: ps, c :: cs => p = c && startsWithLit ps cs

/-- `startsWithCI pat l`: `l` begins with `pat` up to ASCII case folding;
`pat` is given in lower case.  Models matching a literal inside a `/i`
regex. -/
def startsWithCI : List Char → List Char → Bool
  | [], _ => true
  | _ :: _, [] => false
  | p :: ps, c :: cs => p = asciiLowerChar c && startsWithCI ps cs

/-- `containsLit pat l`: some suffix of `l` begins with `pat`.  Models
`String.prototype.includes`. -/
def containsLit (pat : List Char) : List Char → Bool
  | [] => startsWithLit pat []
  | l@(_ :: rest) => startsWithLit pat l || containsLit pat rest

/-- `containsCI pat l`: some suffix of `l` begins with `pat` up to ASCII
case folding. -/
def containsCI (pat : List Char) : List Char → Bool
  | [] => startsWithCI pat []
  | l@(_ :: rest) => startsWithCI pat l || containsCI pat rest

/-- Character class `[a-zA-Z0-9_-]` of the Drive file-id capture in
App.js 14. -/
def driveIdChar (c : Char) : Bool :=
  (97 ≤ c.toNat ∧ c.toNat ≤ 122) ∨ (65 ≤ c.toNat ∧ c.toNat ≤ 90) ∨
  (48 ≤ c.toNat ∧ c.toNat ≤ 57) ∨ c.toNat = 95 ∨ c.toNat = 45

/-- First match of `\/file\/d\/([a-zA-Z0-9_-]+)` in `l`, returning the
captured id.  The regex engine scans left to right; at a position it
requires the literal `/file/d/` followed by at least one id character, the
greedy `+` capturing the maximal id-character run (nothing follows the
capture, so no backtracking can shorten it). -/
def matchFileD : List Char → Option (List Char)
  | [] => none
  | l@(_ :: rest) =>
    if startsWithLit "/file/d/".data l then
      match l.drop 8 with
      | [] => matchFileD rest
      | d :: ds =>
        if driveIdChar d then some (d :: ds.takeWhile driveIdChar)
        else matchFileD rest
    else matchFileD rest

/-- The canonical export-view URL template of App.js 15, instantiated with
a captured file id. -/
def exportViewUrl (fid : List Char) : String :=
  String.mk ("https://drive.google.com/uc?export=view&id=".data ++ fid)

/-- `convertGoogleDriveUrl` (App.js 12-16).  `!url` is true exactly for the
empty string among strings. -/
def convertGoogleDriveUrl (url : String) : String :=
  if url.data = [] ∨ ¬ containsLit "drive.google.com".data url.data then url
  else
    match matchFileD url.data with
    | some fid => exportViewUrl fid
    | none => url

/-- Single-character contribution to `String.prototype.toLowerCase`
(ECMA-262: Unicode Default Case Conversion).  `A`-`Z` map to `a`-`z`; the
only non-ASCII code points whose lowercase mapping contains an ASCII
character are U+212A KELVIN SIGN (→ `k`) and U+0130 LATIN CAPITAL LETTER I
WITH DOT ABOVE (→ `i` followed by U+0307); every other mapping stays
outside `[a-z0-9]` and is therefore indistinguishable from the identity for
`createSlug`, whose later steps only test membership in `[a-z0-9]`. -/
def jsLowerChar (c : Char) : List Char :=
  if 65 ≤ c.toNat ∧ c.toNat ≤ 90 then [Char.ofNat (c.toNat + 32)]
  else if c.toNat = 0x212A then ['k']
  else if c.toNat = 0x0130 then ['i', Char.ofNat 0x0307]
  else [c]

/-- Character class `[a-z0-9]` (the complement of the replaced class in
App.js 19; code points 97-122 and 48-57). -/
def isSlugChar (c : Char) : Bool :=
  (97 ≤ c.toNat ∧ c.toNat ≤ 122) ∨ (48 ≤ c.toNat ∧ c.toNat ≤ 57)

/-- Worker of the `replace(/[^a-z0-9]+/g, '-')` step: `inRun` records
whether the scanner is inside a non-`[a-z0-9]` run whose hyphen has
already been emitted, so every maximal such run contributes exactly one
hyphen. -/
def collapseRun : Bool → List Char → List Char
  | _, [] => []
  | inRun, c :: rest =>
    if isSlugChar c then c :: collapseRun false rest
    else if inRun then collapseRun true rest
    else '-' :: collapseRun true rest

/-- `replace(/[^a-z0-9]+/g, '-')`: every maximal run of characters outside
`[a-z0-9]` becomes a single hyphen. -/
def collapseNonSlug (l : List Char) : List Char := collapseRun false l

/-- `replace(/^-+|-+$/g, '')`: remove the leading and the trailing hyphen
run. -/
def stripHyphens (l : List Char) : List Char :=
  ((l.dropWhile (fun c => c = '-')).reverse.dropWhile (fun c => c = '-')).reverse

/-- `createSlug` (App.js 18-20): lower-case, collapse non-`[a-z0-9]` runs
to hyphens, strip outer hyphens, truncate to 50 characters. -/
def createSlug (title : String) : String :=
  String.mk ((stripHyphens (collapseNonSlug (title.data.flatMap jsLowerChar))).take 50)

/-- Numeric value of a digit string (models `ToNumber` on a string of
decimal digits, as applied by `Date.UTC` to the captured groups). -/
def digitsVal (ds : List Char) : Nat :=
  ds.foldl (fun a c => 10 * a + (c.toNat - 48)) 0

/-- Match `(\d{1,2})\/` at the start of `l`, returning the captured digits
and the rest after the slash.  The greedy `{1,2}` is forced: if two digits
are available the one-digit alternative would require the second digit to
be `/`, which is impossible, so no cross-alternative backtracking exists. -/
def matchDDSlash : List Char → Option (List Char × List Char)
  | c0 :: c1 :: c2 :: r =>
    if isDigitChar c0 then
      if isDigitChar c1 then (if c2 = '/' then some ([c0, c1], r) else none)
      else if c1 = '/' then some ([c0], c2 :: r) else none
    else none
  | [c0, c1] => if isDigitChar c0 ∧ c1 = '/' then some ([c0], []) else none
  | _ => none

/-- Match `(\d{4})` (exactly four digits) at the start of `l`. -/
def matchY4 : List Char → Option (List Char × List Char)
  | a :: b :: c :: d :: r =>
    if isDigitChar a ∧ isDigitChar b ∧ isDigitChar c ∧ isDigitChar d then
      some ([a, b, c, d], r)
    else none
  | _ => none

/-- Match `(\d{1,2})\/(\d{1,2})\/(\d{4})` at the start of `l`, returning
`((day, month, year), matchedChars, rest)`. -/
def dateTokAt (l : List Char) :
    Option ((Nat × Nat × Nat) × List Char × List Char) :=
  match matchDDSlash l with
  | none => none
  | some (dds, r1) =>
    match matchDDSlash r1 with
    | none => none
    | some (mds, r2) =>
      match matchY4 r2 with
      | none => none
      | some (yds, r3) =>
        some ((digitsVal dds, digitsVal mds, digitsVal yds),
              dds ++ '/' :: mds ++ '/' :: yds, r3)

/-- Left-to-right scan of `String.prototype.match` for the `parseDate`
regex (App.js 23): first position where the date pattern matches. -/
def dateSearch : List Char → Option (Nat × Nat × Nat)
  | [] => none
  | l@(_ :: rest) =>
    match dateTokAt l with
    | some (t, _, _) => some t
    | none => dateSearch rest

def msPerDay : Int := 86400000

/-- ECMA-262 `DayFromYear`. -/
def dayFromYear (y : Int) : Int :=
  365 * (y - 1970) + (y - 1969).fdiv 4 - (y - 1901).fdiv 100 +
    (y - 1601).fdiv 400

/-- ECMA-262 `InLeapYear` (via `DaysInYear`). -/
def inLeapYear (y : Int) : Bool :=
  (y.emod 4 = 0 ∧ y.emod 100 ≠ 0) ∨ y.emod 400 = 0

/-- Day of year of the first day of zero-based month `mn`. -/
def monthStartDays (mn : Nat) (leap : Bool) : Int :=
  (if leap then [0, 31, 60, 91, 121, 152, 182, 213, 244, 274, 305, 335]
   else [0, 31, 59, 90, 120, 151, 181, 212, 243, 273, 304, 334]).getD mn 0

/-- ECMA-262 `MakeDay(y, m, d)`: month overflow carries into the year via
floored division (`ym = y + floor(m / 12)`, `mn = m modulo 12`), and the
day argument is added as `d - 1` days after the first of that month —
day overflow therefore rolls into the following month(s). -/
def makeDay (y m d : Int) : Int :=
  let ym := y + m.fdiv 12
  let mn := (m.emod 12).toNat
  dayFromYear ym + monthStartDays mn (inLeapYear ym) + (d - 1)

/-- ECMA-262 `MakeFullYear`: year values 0-99 denote 1900-1999. -/
def makeFullYear (y : Int) : Int := if 0 ≤ y ∧ y ≤ 99 then 1900 + y else y

/-- `Date.UTC(y, m, d)` as milliseconds since the epoch (time-of-day 0,
i.e. UTC midnight). -/
def jsDateUTC (y m d : Int) : Int := makeDay (makeFullYear y) m d * msPerDay

/-- `parseDate` (App.js 22-29) on the character list of the input.  A JS
`Date` is modelled as `Int` milliseconds since the epoch; `new Date()` (the
no-match fallback) is the ambient current time, passed in as `now`. -/
def parseDateMs (l : List Char) (now : Int) : Int :=
  match dateSearch l with
  | some (d, m, y) => jsDateUTC (y : Int) ((m : Int) - 1) (d : Int)
  | none => now

/-- `parseDate` (App.js 22-29). -/
def parseDate (s : String) (now : Int) : Int := parseDateMs s.data now

/-- Proleptic-Gregorian civil date `(year, month 1-12, day 1-31)` of a day
number relative to 1970-01-01 (Howard Hinnant's `civil_from_days`,
with floored division; all inner divisions act on non-negative values). -/
def civilFromDays (z0 : Int) : Int × Nat × Nat :=
  let z := z0 + 719468
  let era := z.fdiv 146097
  let doe := z - era * 146097
  let yoe := (doe - doe.fdiv 1460 + doe.fdiv 36524 - doe.fdiv 146096).fdiv 365
  let y := yoe + era * 400
  let doy := doe - (365 * yoe + yoe.fdiv 4 - yoe.fdiv 100)
  let mp := (5 * doy + 2).fdiv 153
  let d := doy - (153 * mp + 2).fdiv 5 + 1
  let m := if mp < 10 then mp + 3 else mp - 9
  (if m ≤ 2 then y + 1 else y, m.toNat, d.toNat)

/-- `en-US` long month names. -/
def monthNameEnUS (m : Nat) : String :=
  (["January", "February", "March", "April", "May", "June", "July",
    "August", "September", "October", "November", "December"]).getD (m - 1) ""

/-- `Date.prototype.toLocaleDateString('en-US', { year: 'numeric', month:
'long', day: 'numeric', timeZone: tz })`: render the civil date of the
instant shifted by the requested time zone's offset. -/
def jsLocaleDateStringEnUS (tzOffsetMinutes : Int) (ms : Int) : String :=
  let shifted := ms + tzOffsetMinutes * 60000
  let c := civilFromDays (shifted.fdiv msPerDay)
  monthNameEnUS c.2.1 ++ " " ++ toString c.2.2 ++ ", " ++ toString c.1

/-- `formatDate` (App.js 31-34).  The source passes `timeZone: 'UTC'`, so
the rendering uses offset 0 whatever the environment's local time zone
(`_sysTzOffsetMinutes`) is; the `Invalid Date` branch concerns `NaN` date
values, which the integer model cannot produce. -/
def formatDate (_sysTzOffsetMinutes : Int) (ms : Int) : String :=
  jsLocaleDateStringEnUS 0 ms

/-- `String.prototype.trim`: strip leading and trailing ECMAScript
whitespace. -/
def trimWs (l : List Char) : List Char :=
  ((l.dropWhile jsWhitespace).reverse.dropWhile jsWhitespace).reverse

/-- `\s*Image:` matches at this position iff `Image:` (case-insensitively)
follows the maximal whitespace run: the greedy `\s*` can only stop where a
non-whitespace character or the end begins, since no whitespace character
can start `Image:`. -/
def imageHereCI (l : List Char) : Bool :=
  startsWithCI "image:".data (l.dropWhile jsWhitespace)

/-- Lazy capture `([^\n\r]*?)(?:\s*Image:|$)` of the headline regex
(App.js 56), started after the maximal whitespace run following the
marker.  At each extension point the continuation is tried first
(`\s*Image:`, then `$`); a capture character must be outside `[\n\r]`,
otherwise this start position fails altogether. -/
def hlCapture : List Char → Option (List Char)
  | [] => some []
  | c :: rest =>
    if imageHereCI (c :: rest) then some []
    else if c.toNat = 10 ∨ c.toNat = 13 then none
    else
      match hlCapture rest with
      | some cap => some (c :: cap)
      | none => none

/-- Scan of `/Headline:\s*([^\n\r]*?)(?:\s*Image:|$)/i` (App.js 56).
The greedy `\s*` after the marker is tried maximal-first; if the capture
fails from there it also fails from every shorter skip (the skipped
whitespace would have to be captured, and either contains `[\n\r]` or
reproduces the same failure), so only the maximal skip is tried.  On
failure the engine resumes the search at the next character. -/
def headlineScan : List Char → Option (List Char)
  | [] => none
  | l@(_ :: rest) =>
    if startsWithCI "headline:".data l then
      match hlCapture ((l.drop 9).dropWhile jsWhitespace) with
      | some cap => some cap
      | none => headlineScan rest
    else headlineScan rest

/-- Headline of an article segment (App.js 56-57). -/
def headlineOf (seg : List Char) : String :=
  match headlineScan seg with
  | some cap => String.mk (trimWs cap)
  | none => "No headline"

/-- `\s*Author:` test, analogous to `imageHereCI`. -/
def authorHereCI (l : List Char) : Bool :=
  startsWithCI "author:".data (l.dropWhile jsWhitespace)

/-- Lazy capture `(.*?)(?:\s*Author:|$)` of the body regex (App.js 58).
With the `s` (dotAll) flag the capture accepts every character, so the
match always succeeds (reaching `$` at the latest); it stops at the first
point where `\s*Author:` matches. -/
def bodyCapture : List Char → List Char
  | [] => []
  | c :: rest => if authorHereCI (c :: rest) then [] else c :: bodyCapture rest

/-- Scan of `/Body:\s*(.*?)(?:\s*Author:|$)/is` (App.js 58): the first
`Body:` occurrence always yields a match. -/
def bodyScan : List Char → Option (List Char)
  | [] => none
  | l@(_ :: rest) =>
    if startsWithCI "body:".data l then
      some (bodyCapture ((l.drop 5).dropWhile jsWhitespace))
    else bodyScan rest

/-- Worker of `replace(/\s+/g, ' ')`: `inRun` records whether the scanner
is inside a whitespace run whose single space has already been emitted. -/
def collapseWsRun : Bool → List Char → List Char
  | _, [] => []
  | inRun, c :: rest =>
    if jsWhitespace c then
      if inRun then collapseWsRun true rest
      else ' ' :: collapseWsRun true rest
    else c :: collapseWsRun false rest

/-- `replace(/\s+/g, ' ')`: every maximal whitespace run becomes a single
space. -/
def collapseWs (l : List Char) : List Char := collapseWsRun false l

/-- Body of an article segment (App.js 58-59). -/
def bodyOf (seg : List Char) : String :=
  match bodyScan seg with
  | some cap => String.mk (trimWs (collapseWs cap))
  | none => "No content available"

/-- Scan of `/Author:\s*([^\n\r]*)/i` (App.js 60): at the first `Author:`
occurrence the greedy `\s*` takes the maximal whitespace run and the
greedy unconstrained capture takes the maximal `[^\n\r]` run. -/
def authorScan : List Char → Option (List Char)
  | [] => none
  | l@(_ :: rest) =>
    if startsWithCI "author:".data l then
      some (((l.drop 7).dropWhile jsWhitespace).takeWhile
        (fun c => !(c.toNat = 10 ∨ c.toNat = 13)))
    else authorScan rest

/-- Author of an article segment (App.js 60-61). -/
def authorOf (seg : List Char) : String :=
  match authorScan seg with
  | some cap => String.mk (trimWs cap)
  | none => "Unknown author"

/-- Match of the header regex `News\s+(\d+)\s*\((\d{1,2}\/\d{1,2}\/\d{4})\):`
(App.js 44) at the start of `l`, returning the captured date token and the
rest after the match.  All quantified pieces are forced: `\s` and `\d` and
the literals `(`, `)`, `:` are pairwise disjoint character sets, so the
greedy runs are maximal with no viable backtracking. -/
def matchNewsAt (l : List Char) : Option (List Char × List Char) :=
  if startsWithLit "News".data l then
    let r0 := l.drop 4
    if (r0.takeWhile jsWhitespace).isEmpty then none
    else
      let r1 := r0.dropWhile jsWhitespace
      if (r1.takeWhile isDigitChar).isEmpty then none
      else
        let r2 := r1.dropWhile isDigitChar
        match r2.dropWhile jsWhitespace with
        | '(' :: r4 =>
          match dateTokAt r4 with
          | some (_, tok, r5) =>
            match r5 with
            | ')' :: ':' :: r6 => some (tok, r6)
            | _ => none
          | none => none
        | _ => none
  else none

/-- Find the first header match in `l`, returning the text before the
match, the date token and the rest after the match.  `fuel` bounds the
number of scan positions; callers pass at least `l.length + 1`, which is
sufficient since one character is consumed per step. -/
def findNews : Nat → List Char → Option (List Char × List Char × List Char)
  | 0, _ => none
  | _ + 1, [] => none
  | fuel + 1, l@(c :: rest) =>
    match matchNewsAt l with
    | some (tok, after) => some ([], tok, after)
    | none =>
      match findNews fuel rest with
      | some (pre, tok, after) => some (c :: pre, tok, after)
      | none => none

/-- Collect the remaining `(dateToken, segment)` pairs given the token of
the already-found current header: the current segment extends to the next
header match (or to the end of the text), exactly the
`startIndex`/`endIndex` arithmetic of App.js 50-52.  Each step consumes at
least one character of `l`, so `fuel ≥ l.length + 1` never runs out. -/
def collectNewsAux : Nat → List Char → List Char → List (List Char × List Char)
  | 0, tok, l => [(tok, l)]
  | fuel + 1, tok, l =>
    match findNews (fuel + 1) l with
    | none => [(tok, l)]
    | some (pre, tok', after) => (tok, pre) :: collectNewsAux fuel tok' after

/-- All `(dateToken, segment)` pairs of the flattened text, in document
order: the `matchAll` loop of App.js 44-52 (text before the first header is
discarded). -/
def collectNews (text : List Char) : List (List Char × List Char) :=
  match findNews (text.length + 1) text with
  | none => []
  | some (_, tok, after) => collectNewsAux (text.length + 1) tok after

/-- Article record (App.js 78-88).  `date` is the JS `Date` value in
milliseconds since the epoch; `isLocal` is the origin tag (`false` =
remote/document, `true` = locally added). -/
structure Article where
  id : String
  date : Int
  dateStr : String
  headline : String
  body : String
  author : String
  imageUrl : String
  slug : String
  isLocal : Bool
deriving DecidableEq, Repr

/-- The record pushed for one segment (App.js 54-88).  `id` is
`gdoc_${Date.now() + Math.random()}`, a nondeterministic fresh string, and
`imageUrl` is computed by scanning the DOM paragraphs for one containing
both the extracted headline and `Image:` — both live outside the flattened
text, so they enter the model as inputs. -/
def articleOfSegment (now : Int) (id imageUrl : String)
    (tokSeg : List Char × List Char) : Article :=
  let headline := headlineOf tokSeg.2
  { id := id
    date := parseDateMs tokSeg.1 now
    dateStr := String.mk tokSeg.1
    headline := headline
    body := bodyOf tokSeg.2
    author := authorOf tokSeg.2
    imageUrl := imageUrl
    slug := createSlug headline
    isLocal := false }

/-- Stable insertion into a date-descending list: the new element goes in
front of the first element whose date is not larger. -/
def insertDateDesc (a : Article) : List Article → List Article
  | [] => [a]
  | b :: l => if b.date ≤ a.date then a :: b :: l else b :: insertDateDesc a l

/-- `sort((a, b) => b.date - a.date)` (App.js 90/116/133): ES2019+
`Array.prototype.sort` is stable, and with this consistent comparator its
result is the unique stable date-descending reordering, which stable
insertion sort realizes. -/
def sortDateDesc (l : List Article) : List Article := l.foldr insertDateDesc []

/-- `parseGoogleDocArticles` (App.js 37-91) from the flattened text of the
content container onward.  `idGen i` is the fresh id of the `i`-th pushed
record and `imageOf` the DOM-paragraph image association keyed by the
extracted headline (see `articleOfSegment`); `now` feeds `parseDate`'s
fallback. -/
def parseGoogleDocArticles (now : Int) (idGen : Nat → String)
    (imageOf : String → String) (fullText : List Char) : List Article :=
  sortDateDesc ((collectNews fullText).enum.map
    (fun p => articleOfSegment now (idGen p.1) (imageOf (headlineOf p.2.2)) p.2))

/-- The slug-keyed left-biased union of `fetchAndMergeArticles`
(App.js 109-116): local articles, then the remote articles whose slug is
not among the local slugs, sorted date-descending. -/
def mergeArticles (localArticles gdocArticles : List Article) : List Article :=
  let localSlugs := localArticles.map (·.slug)
  sortDateDesc (localArticles ++
    gdocArticles.filter (fun a => !(localSlugs.contains a.slug)))

/-- Store state: the rendered article list and the persisted local-storage
list (under `localNewsArticles`). -/
structure StoreState where
  articles : List Article
  storage : List Article
deriving DecidableEq, Repr

/-- `saveArticles` (App.js 130-134): persist the local subset, re-sort and
set the article list. -/
def saveArticles (updated : List Article) : StoreState :=
  { articles := sortDateDesc updated
    storage := updated.filter (·.isLocal) }

/-- `deleteArticle` (App.js 148-155).  The boolean is `true` when the
deletion is rejected with the alert (a remote article was targeted); in
that case the state is returned untouched.  Otherwise the list filtered by
id is saved. -/
def deleteArticle (s : StoreState) (articleId : String) : StoreState × Bool :=
  match s.articles.find? (fun a => a.id == articleId) with
  | some a =>
    if !a.isLocal then (s, true)
    else (saveArticles (s.articles.filter (fun b => !(b.id == articleId))), false)
  | none => (saveArticles (s.articles.filter (fun b => !(b.id == articleId))), false)

/-- ASCII alphanumeric characters. -/
def isAsciiAlnum (c : Char) : Bool :=
  (65 ≤ c.toNat ∧ c.toNat ≤ 90) ∨ (97 ≤ c.toNat ∧ c.toNat ≤ 122) ∨
  (48 ≤ c.toNat ∧ c.toNat ≤ 57)

/-- Suffix of `l` just after the first (case-insensitive) occurrence of
`pat`, if any. -/
def afterFirstCI (pat : List Char) : List Char → Option (List Char)
  | [] => if startsWithCI pat [] then some [] else none
  | l@(_ :: rest) =>
    if startsWithCI pat l then some (l.drop pat.length)
    else afterFirstCI pat rest

/-- Text up to the start of the first (case-insensitive) `Image:` marker,
or all of it when none occurs. -/
def takeToImageCI : List Char → List Char
  | [] => []
  | l@(c :: rest) =>
    if startsWithCI "image:".data l then [] else c :: takeToImageCI rest

/-- The headline as described by the spec sentence behind C3: the segment
text from just after the (first) `Headline:` marker up to the start of the
`Image:` marker if one follows, or to the end of the segment otherwise,
trimmed — markers read case-insensitively, as the source's `/i` regexes
match them. -/
def specHeadline (seg : List Char) : String :=
  match afterFirstCI "headline:".data seg with
  | some after => String.mk (trimWs (takeToImageCI after))
  | none => "No headline"

/-- Pairwise check that nowhere in the list a `/` is immediately followed
by `f` — a sufficient condition for the absence of any `/file/d/` match,
used to reason about already-resolved URLs. -/
def noSlashFB : List Char → Bool
  | c1 :: c2 :: rest => !(c1 = '/' ∧ c2 = 'f') && noSlashFB (c2 :: rest)
  | _ => true

/-- UTC midnight of the civil date `(y, m, d)` (1-based month), expressed
through the `MakeDay` day count without the `MakeFullYear` adjustment: the
"calendar date at UTC midnight" the claims speak about. -/
def utcMidnightMs (y m d : Int) : Int := makeDay y (m - 1) d * msPerDay

/-! ### Concrete fixtures used by witnesses and counterexamples -/

/-- Deterministic stand-in for the nondeterministic fresh-id generator. -/
def witnessIdGen : Nat → String := fun i => toString i

/-- Stand-in for the DOM-paragraph image association. -/
def witnessImageOf : String → String := fun _ => ""

/-- The end-to-end example document of the specification (§8). -/
def doc1 : String :=
  "News 1 (05/01/2025): Headline: Storm hits coast Image: x Body: Heavy rain fell. Author: J. Doe"

/-- The record the parser emits for `doc1`. -/
def doc1Article : Article :=
  { id := "0"
    date := 1736035200000
    dateStr := "05/01/2025"
    headline := "Storm hits coast"
    body := "Heavy rain fell."
    author := "J. Doe"
    imageUrl := ""
    slug := "storm-hits-coast"
    isLocal := false }

/-- A document whose single well-formed header is followed by a `Headline:`
marker immediately followed by the `Image:` marker, so the captured
headline is empty. -/
def docNoSlug : String := "News 1 (05/01/2025): Headline: Image: x"

/-- Two-segment document whose first segment lacks the `Body:` marker. -/
def docA : String :=
  "News 1 (06/01/2025): Headline: A Image: i Author: X News 2 (05/01/2025): Headline: B Image: q Body: C Author: D"

/-- `docA` with a `Body:` marker added to the first segment; the second
segment is identical. -/
def docB : String :=
  "News 1 (06/01/2025): Headline: A Image: i Body: Z Author: X News 2 (05/01/2025): Headline: B Image: q Body: C Author: D"

/-- A locally added article with slug `"aa"`. -/
def artLocal : Article :=
  { id := "local_1", date := 100, dateStr := "", headline := "Aa",
    body := "local body", author := "me", imageUrl := "", slug := "aa",
    isLocal := true }

/-- A remote article sharing the slug `"aa"` with `artLocal`. -/
def artRemote : Article :=
  { id := "gdoc_1", date := 200, dateStr := "", headline := "Aa",
    body := "remote body", author := "doc", imageUrl := "", slug := "aa",
    isLocal := false }

/-- A remote article with its own slug. -/
def artRemote2 : Article :=
  { id := "gdoc_2", date := 300, dateStr := "", headline := "Bb",
    body := "other body", author := "doc", imageUrl := "", slug := "bb",
    isLocal := false }

/-- A store holding one local and one remote article. -/
def storeW : StoreState :=
  { articles := [artRemote2, artLocal], storage := [artLocal] }

/-! ### Character-level helper lemmas -/

theorem char_toNat_ofNat {n : Nat} (h : n.isValidChar) :
    (Char.ofNat n).toNat = n := by
  simp only [Char.ofNat, dif_pos h, Char.ofNatAux, Char.toNat]
  simp [UInt32.toNat]

theorem char_eq_of_toNat {a b : Char} (h : a.toNat = b.toNat) : a = b := by
  have ha := Char.ofNat_toNat a
  rw [← ha, h, Char.ofNat_toNat]

/-- A whitespace character never case-folds to an ASCII letter: folding
only moves code points 65-90, which are not whitespace. -/
theorem asciiLowerChar_of_ws {c : Char} (h : jsWhitespace c = true) :
    asciiLowerChar c = c := by
  rw [asciiLowerChar, if_neg]
  intro ⟨h1, h2⟩
  simp only [jsWhitespace, decide_eq_true_eq] at h
  omega

/-- No whitespace character equals a lower-case ASCII letter or digit. -/
theorem ws_toNat_not_ascii {c : Char} (h : jsWhitespace c = true) :
    ¬ (33 ≤ c.toNat ∧ c.toNat ≤ 126) := by
  simp only [jsWhitespace, decide_eq_true_eq] at h
  omega

/-! ### Sorting lemmas -/

theorem insertDateDesc_perm (a : Article) (l : List Article) :
    List.Perm (insertDateDesc a l) (a :: l) := by
  induction l with
  | nil => simp [insertDateDesc]
  | cons b t ih =>
    rw [insertDateDesc]
    by_cases h : b.date ≤ a.date
    · rw [if_pos h]
    · rw [if_neg h]
      exact (ih.cons b).trans (List.Perm.swap a b t)

theorem sortDateDesc_perm (l : List Article) :
    List.Perm (sortDateDesc l) l := by
  induction l with
  | nil => simp [sortDateDesc]
  | cons a t ih =>
    exact (insertDateDesc_perm a (sortDateDesc t)).trans (ih.cons a)

theorem chain'_insertDateDesc (a : Article) :
    ∀ l : List Article, List.Chain' (fun x y => y.date ≤ x.date) l →
      List.Chain' (fun x y => y.date ≤ x.date) (insertDateDesc a l)
  | [], _ => by simp [insertDateDesc]
  | b :: t, h => by
    rw [insertDateDesc]
    by_cases hba : b.date ≤ a.date
    · rw [if_pos hba]
      exact List.chain'_cons.mpr ⟨hba, h⟩
    · rw [if_neg hba]
      have hab : a.date ≤ b.date := le_of_not_le hba
      refine List.chain'_cons'.mpr ⟨?_, chain'_insertDateDesc a t h.tail⟩
      intro y hy
      cases t with
      | nil =>
        simp [insertDateDesc] at hy
        exact hy ▸ hab
      | cons c t' =>
        rw [insertDateDesc] at hy
        by_cases hca : c.date ≤ a.date
        · rw [if_pos hca] at hy
          simp at hy
          exact hy ▸ hab
        · rw [if_neg hca] at hy
          simp at hy
          exact hy ▸ (List.chain'_cons.mp h).1

theorem sortDateDesc_sorted (l : List Article) :
    List.Chain' (fun x y => y.date ≤ x.date) (sortDateDesc l) := by
  induction l with
  | nil => simp [sortDateDesc]
  | cons a t ih => exact chain'_insertDateDesc a (sortDateDesc t) ih

theorem mem_sortDateDesc {a : Article} {l : List Article} :
    a ∈ sortDateDesc l ↔ a ∈ l :=
  (sortDateDesc_perm l).mem_iff

/-! ### C1 — refresh is a slug-keyed left-biased union -/

/-- C1: `ArticleStore.refresh` computes a slug-keyed left-biased union:
the merged list is a permutation of the local articles followed by exactly
the remote articles whose slug is not among the local slugs, sorted by date
descending; and when exactly one local article carries slug `s` (local
articles being the persisted ones, hence `isLocal = true`), the merged
result contains exactly one article with slug `s` and it is that local one
(origin local). -/
theorem c1_refresh_left_biased_union
    (localArticles gdocArticles : List Article) (s : String)
    (hone : localArticles.countP (fun a => a.slug == s) = 1)
    (hloc : ∀ a ∈ localArticles, a.isLocal = true) :
    List.Perm (mergeArticles localArticles gdocArticles)
      (localArticles ++ gdocArticles.filter
        (fun a => !((localArticles.map (fun b => b.slug)).contains a.slug)))
    ∧ List.Chain' (fun x y => y.date ≤ x.date)
        (mergeArticles localArticles gdocArticles)
    ∧ (mergeArticles localArticles gdocArticles).countP
        (fun a => a.slug == s) = 1
    ∧ ∀ b ∈ mergeArticles localArticles gdocArticles,
        b.slug = s → b ∈ localArticles ∧ b.isLocal = true := by
  have hmem : ∃ a ∈ localArticles, (a.slug == s) = true := by
    refine List.countP_pos_iff.mp ?_
    rw [hone]
    exact Nat.one_pos
  have hfilter : ∀ b ∈ gdocArticles.filter
      (fun a => !((localArticles.map (fun c => c.slug)).contains a.slug)),
      ¬ ((fun a => a.slug == s) b = true) := by
    intro b hb hbs
    obtain ⟨_, hbf⟩ := List.mem_filter.mp hb
    obtain ⟨a, ha, has⟩ := hmem
    have hsb : b.slug = s := by simpa using hbs
    have hcontains : (localArticles.map (fun c => c.slug)).contains b.slug
        = true := by
      have : b.slug ∈ localArticles.map (fun c => c.slug) := by
        rw [hsb]
        exact List.mem_map.mpr ⟨a, ha, by simpa using has⟩
      simpa using this
    rw [hcontains] at hbf
    simp at hbf
  simp only [mergeArticles]
  refine ⟨sortDateDesc_perm _, sortDateDesc_sorted _, ?_, ?_⟩
  · rw [(sortDateDesc_perm _).countP_eq, List.countP_append, hone,
      List.countP_eq_zero.mpr hfilter]
  · intro b hb hbs
    rcases List.mem_append.mp (mem_sortDateDesc.mp hb) with h1 | h2
    · exact ⟨h1, hloc b h1⟩
    · exact absurd (by simp [hbs] : (fun a => a.slug == s) b = true)
        (hfilter b h2)

/-- Witness for C1 at a concrete store: one local and one remote article
share the slug `"aa"`; the merge keeps exactly the local one. -/
theorem c1_witness :
    (mergeArticles [artLocal] [artRemote]).countP
      (fun a => a.slug == "aa") = 1
    ∧ ∀ b ∈ mergeArticles [artLocal] [artRemote],
        b.slug = "aa" → b ∈ [artLocal] ∧ b.isLocal = true := by
  have h := c1_refresh_left_biased_union [artLocal] [artRemote] "aa"
    (by decide) (by decide)
  exact ⟨h.2.2.1, h.2.2.2⟩

/-! ### C9 — only local articles are deletable -/

/-- C9: `deleteArticle` on the id of a remote-origin article is rejected
(the alert fires, modelled by the `true` flag) and leaves the article list
and the persisted storage untouched; on a local-origin id it removes that
article and saves the updated list (storage re-persisted from the filtered
list). -/
theorem c9_delete_only_local
    (s : StoreState) (i : String) (a : Article)
    (hfind : s.articles.find? (fun b => b.id == i) = some a) :
    (a.isLocal = false → deleteArticle s i = (s, true))
    ∧ (a.isLocal = true →
        (deleteArticle s i).2 = false
        ∧ List.Perm (deleteArticle s i).1.articles
            (s.articles.filter (fun b => !(b.id == i)))
        ∧ (deleteArticle s i).1.storage =
            (s.articles.filter (fun b => !(b.id == i))).filter
              (fun b => b.isLocal)
        ∧ ∀ b ∈ (deleteArticle s i).1.articles, b.id ≠ i) := by
  constructor
  · intro hrem
    simp [deleteArticle, hfind, hrem]
  · intro hl
    have hd : deleteArticle s i =
        (saveArticles (s.articles.filter (fun b => !(b.id == i))), false) := by
      simp [deleteArticle, hfind, hl]
    rw [hd]
    refine ⟨rfl, sortDateDesc_perm _, rfl, ?_⟩
    intro b hb
    have hbf := (List.mem_filter.mp (mem_sortDateDesc.mp hb)).2
    simpa using hbf

/-- Witness for C9 at a concrete store: deleting the remote article is a
rejected no-op, deleting the local article succeeds and removes it. -/
theorem c9_witness :
    deleteArticle storeW "gdoc_2" = (storeW, true)
    ∧ (deleteArticle storeW "local_1").2 = false
    ∧ ∀ b ∈ (deleteArticle storeW "local_1").1.articles, b.id ≠ "local_1" := by
  have h1 := c9_delete_only_local storeW "gdoc_2" artRemote2 (by decide)
  have h2 := c9_delete_only_local storeW "local_1" artLocal (by decide)
  exact ⟨h1.1 rfl, (h2.2 rfl).1, (h2.2 rfl).2.2.2⟩

/-! ### C7 — DriveLinkResolver is idempotent -/

theorem startsWithLit_of_append {pat : List Char} (t : List Char) :
    ∀ {l : List Char}, startsWithLit pat l = true →
      startsWithLit pat (l ++ t) = true := by
  induction pat with
  | nil => intro l _; rfl
  | cons p ps ih =>
    intro l h
    cases l with
    | nil => simp [startsWithLit] at h
    | cons c cs =>
      simp only [startsWithLit, Bool.and_eq_true, decide_eq_true_eq] at h ⊢
      exact ⟨h.1, ih h.2⟩

theorem containsLit_append_left (pat : List Char) :
    ∀ l t : List Char, containsLit pat l = true →
      containsLit pat (l ++ t) = true
  | [], t, h => by
    cases pat with
    | nil =>
      cases t with
      | nil => simpa using h
      | cons x xs => simp [containsLit, startsWithLit]
    | cons p ps => simp [containsLit, startsWithLit] at h
  | c :: cs, t, h => by
    rw [containsLit] at h
    rw [List.cons_append, containsLit]
    cases hx : startsWithLit pat (c :: cs) with
    | true =>
      have h1' := startsWithLit_of_append t hx
      rw [List.cons_append] at h1'
      simp [h1']
    | false =>
      rw [hx] at h
      simp only [Bool.false_or] at h
      simp [containsLit_append_left pat cs t h]

theorem fileD_data_eq :
    "/file/d/".data = ['/', 'f', 'i', 'l', 'e', '/', 'd', '/'] := rfl

theorem startsWithLit_fileD_parts {c : Char} {cs : List Char}
    (h : startsWithLit "/file/d/".data (c :: cs) = true) :
    c = '/' ∧ ∃ r, cs = 'f' :: r := by
  rw [fileD_data_eq] at h
  cases cs with
  | nil => simp [startsWithLit] at h
  | cons d ds =>
    simp only [startsWithLit, Bool.and_eq_true, decide_eq_true_eq] at h
    exact ⟨h.1.symm, ds, by rw [← h.2.1]⟩

/-- A list in which no `/` is immediately followed by `f` admits no
`/file/d/` match anywhere. -/
theorem matchFileD_none_of_chain :
    ∀ l : List Char, List.Chain' (fun a b => ¬(a = '/' ∧ b = 'f')) l →
      matchFileD l = none
  | [], _ => rfl
  | c :: rest, h => by
    have hsw : startsWithLit "/file/d/".data (c :: rest) = false := by
      cases hx : startsWithLit "/file/d/".data (c :: rest) with
      | false => rfl
      | true =>
        obtain ⟨hc, r, hr⟩ := startsWithLit_fileD_parts hx
        subst hc; subst hr
        exact absurd ⟨rfl, rfl⟩ (List.chain'_cons.mp h).1
    rw [matchFileD]
    simp only [hsw, Bool.false_eq_true, if_false]
    exact matchFileD_none_of_chain rest h.tail

theorem chain'_of_noSlashFB :
    ∀ l : List Char, noSlashFB l = true →
      List.Chain' (fun a b => ¬(a = '/' ∧ b = 'f')) l
  | [], _ => List.chain'_nil
  | [c], _ => List.chain'_singleton c
  | c1 :: c2 :: rest, h => by
    rw [noSlashFB] at h
    simp only [Bool.and_eq_true, Bool.not_eq_true', decide_eq_false_iff_not]
      at h
    exact List.chain'_cons.mpr ⟨h.1, chain'_of_noSlashFB (c2 :: rest) h.2⟩

theorem chain'_noSlashF_of_idChars :
    ∀ l : List Char, (∀ c ∈ l, driveIdChar c = true) →
      List.Chain' (fun a b => ¬(a = '/' ∧ b = 'f')) l
  | [], _ => List.chain'_nil
  | [c], _ => List.chain'_singleton c
  | c :: d :: r, h => by
    refine List.chain'_cons.mpr ⟨?_, chain'_noSlashF_of_idChars (d :: r) ?_⟩
    · intro hpair
      exact absurd (h c (by simp)) (by rw [hpair.1]; decide)
    · intro x hx
      exact h x (List.mem_cons_of_mem c hx)

theorem matchFileD_exportView (fid : List Char)
    (h : ∀ c ∈ fid, driveIdChar c = true) :
    matchFileD (exportViewUrl fid).data = none := by
  have hdata : (exportViewUrl fid).data
      = "https://drive.google.com/uc?export=view&id=".data ++ fid := rfl
  rw [hdata]
  apply matchFileD_none_of_chain
  rw [List.chain'_append]
  refine ⟨chain'_of_noSlashFB _ (by decide),
    chain'_noSlashF_of_idChars fid h, ?_⟩
  intro x hx y _
  have hlast : "https://drive.google.com/uc?export=view&id=".data.getLast?
      = some '=' := by decide
  rw [hlast] at hx
  have hx' : x = '=' := (by simpa using hx : '=' = x).symm
  rw [hx']
  intro hpair
  exact absurd hpair.1 (by decide)

theorem matchFileD_id_chars :
    ∀ l fid : List Char, matchFileD l = some fid →
      ∀ c ∈ fid, driveIdChar c = true
  | [], fid, h => by simp [matchFileD] at h
  | a :: rest, fid, h => by
    rw [matchFileD] at h
    by_cases hsw : startsWithLit "/file/d/".data (a :: rest) = true
    · rw [if_pos hsw] at h
      cases hdrop : (a :: rest).drop 8 with
      | nil =>
        rw [hdrop] at h
        exact matchFileD_id_chars rest fid h
      | cons d ds =>
        rw [hdrop] at h
        have h' : (if driveIdChar d = true
            then some (d :: ds.takeWhile driveIdChar)
            else matchFileD rest) = some fid := h
        by_cases hd : driveIdChar d = true
        · rw [if_pos hd] at h'
          injection h' with hfid
          subst hfid
          intro c hc
          rcases List.mem_cons.mp hc with hcd | hctw
          · exact hcd ▸ hd
          · exact List.mem_takeWhile_imp hctw
        · rw [if_neg hd] at h'
          exact matchFileD_id_chars rest fid h'
    · rw [if_neg hsw] at h
      exact matchFileD_id_chars rest fid h

/-- C7: `convertGoogleDriveUrl` is idempotent on every URL; moreover a URL
without the Drive host marker, a Drive URL from which no `/file/d/<ID>`
segment can be extracted, and an already-resolved export-view URL are each
returned unchanged.  (The function is total, so "never throws" holds by
construction.) -/
theorem c7_resolve_idempotent :
    (∀ u : String,
        convertGoogleDriveUrl (convertGoogleDriveUrl u)
          = convertGoogleDriveUrl u)
    ∧ (∀ u : String, containsLit "drive.google.com".data u.data = false →
        convertGoogleDriveUrl u = u)
    ∧ (∀ u : String, matchFileD u.data = none → convertGoogleDriveUrl u = u)
    ∧ (∀ fid : List Char, (∀ c ∈ fid, driveIdChar c = true) →
        convertGoogleDriveUrl (exportViewUrl fid) = exportViewUrl fid) := by
  have hnomarker : ∀ u : String,
      containsLit "drive.google.com".data u.data = false →
        convertGoogleDriveUrl u = u := by
    intro u h
    unfold convertGoogleDriveUrl
    rw [if_pos (Or.inr (by simp [h]))]
  have hnone : ∀ u : String, matchFileD u.data = none →
      convertGoogleDriveUrl u = u := by
    intro u h
    unfold convertGoogleDriveUrl
    split
    · rfl
    · rw [h]
  have hres : ∀ fid : List Char, (∀ c ∈ fid, driveIdChar c = true) →
      convertGoogleDriveUrl (exportViewUrl fid) = exportViewUrl fid :=
    fun fid h => hnone _ (matchFileD_exportView fid h)
  refine ⟨?_, hnomarker, hnone, hres⟩
  intro u
  by_cases h0 : u.data = []
      ∨ ¬ containsLit "drive.google.com".data u.data = true
  · have hu : convertGoogleDriveUrl u = u := by
      unfold convertGoogleDriveUrl
      rw [if_pos h0]
    rw [hu]
    exact hu
  · cases hm : matchFileD u.data with
    | none =>
      have hu := hnone u hm
      rw [hu]
      exact hu
    | some fid =>
      have hu : convertGoogleDriveUrl u = exportViewUrl fid := by
        unfold convertGoogleDriveUrl
        rw [if_neg h0, hm]
      rw [hu]
      exact hres fid (matchFileD_id_chars u.data fid hm)

/-- Witness for C7: a concrete Drive file-view URL resolves idempotently,
a non-Drive URL and an id-less Drive URL are unchanged, and a concrete
export-view URL is a fixed point. -/
theorem c7_witness :
    convertGoogleDriveUrl (convertGoogleDriveUrl
        "https://drive.google.com/file/d/ABC/view")
      = convertGoogleDriveUrl "https://drive.google.com/file/d/ABC/view"
    ∧ convertGoogleDriveUrl "https://example.com/a" = "https://example.com/a"
    ∧ convertGoogleDriveUrl "https://drive.google.com/open?id=Q"
        = "https://drive.google.com/open?id=Q"
    ∧ convertGoogleDriveUrl (exportViewUrl "ABC".data)
        = exportViewUrl "ABC".data := by
  have h := c7_resolve_idempotent
  exact ⟨h.1 _, h.2.1 _ (by decide), h.2.2.1 _ (by decide),
    h.2.2.2 _ (by decide)⟩

/-! ### C4 / C10 / C5 — date parsing and formatting -/

/-- C4 counterexample: the four-digit year field `0099` does not yield
year 99 — `Date.UTC` applies the ECMAScript two-digit-year rule
(`MakeFullYear`), so `05/01/0099` parses to 5 January 1999, not to
5 January of year 99 as the claim's "year = the third field" asserts. -/
theorem c4_counterexample :
    dateSearch "05/01/0099".data = some (5, 1, 99)
    ∧ parseDate "05/01/0099" 0 = utcMidnightMs 1999 1 5
    ∧ utcMidnightMs 1999 1 5 ≠ utcMidnightMs 99 1 5 := by decide

/-- C4 (amended): for every string containing a `D{1,2}/M{1,2}/Y{4}`
token, `parseDate` returns the calendar date with day = first field,
month = second field (day/month/year order, not ISO), and year =
`MakeFullYear` of the third field (1900 + value when the value is at most
99, i.e. four-digit fields with leading zeros; the value itself
otherwise), at UTC midnight; for every string containing no such token it
returns the current time rather than failing. -/
theorem c4_parse_day_month_year (s : String) (d m y : Nat) (now : Int)
    (h : dateSearch s.data = some (d, m, y)) :
    parseDate s now = utcMidnightMs (makeFullYear y) m d
    ∧ parseDate s now % msPerDay = 0
    ∧ ∀ s' : String, dateSearch s'.data = none →
        ∀ now' : Int, parseDate s' now' = now' := by
  refine ⟨?_, ?_, ?_⟩
  · rw [parseDate, parseDateMs, h]
    rfl
  · rw [parseDate, parseDateMs, h]
    exact Int.mul_emod_left _ _
  · intro s' h' now'
    rw [parseDate, parseDateMs, h']

/-- Witness for C4 at the token `05/01/2025`. -/
theorem c4_witness :
    parseDate "05/01/2025" 77 = utcMidnightMs (makeFullYear 2025) 1 5
    ∧ parseDate "05/01/2025" 77 % msPerDay = 0 := by
  have h := c4_parse_day_month_year "05/01/2025" 5 1 2025 77 (by decide)
  exact ⟨h.1, h.2.1⟩

/-- C10: `parseDate` performs no calendar-range validation: whenever a
token matches, the result is UTC midnight of the first of the (normalized)
month plus `day - 1` further days — a day field beyond the month length
silently carries into the following month(s) instead of failing or taking
the "now" fallback; concretely `31/04/2025` becomes 1 May 2025 and
`29/02/2025` becomes 1 March 2025. -/
theorem c10_overflow_normalizes (s : String) (d m y : Nat) (now : Int)
    (h : dateSearch s.data = some (d, m, y)) :
    parseDate s now
      = utcMidnightMs (makeFullYear y) m 1 + ((d : Int) - 1) * msPerDay
    ∧ parseDate "31/04/2025" 0 = utcMidnightMs 2025 5 1
    ∧ parseDate "29/02/2025" 0 = utcMidnightMs 2025 3 1 := by
  refine ⟨?_, by decide, by decide⟩
  rw [parseDate, parseDateMs, h]
  simp only [jsDateUTC, utcMidnightMs, makeDay]
  ring

/-- Witness for C10 at the out-of-range token `31/04/2025`. -/
theorem c10_witness :
    parseDate "31/04/2025" 0
      = utcMidnightMs (makeFullYear 2025) 4 1 + ((31 : Int) - 1) * msPerDay
    ∧ parseDate "31/04/2025" 0 = utcMidnightMs 2025 5 1 := by
  have h := c10_overflow_normalizes "31/04/2025" 31 4 2025 0 (by decide)
  exact ⟨h.1, h.2.1⟩

/-- C5: for every string containing a date token, format-after-parse is
deterministic and independent of both the ambient current time and the
caller's local time zone: the match branch of `parseDate` uses `Date.UTC`
only, and `formatDate` pins `timeZone: 'UTC'`. -/
theorem c5_format_parse_stable (s : String) (t : Nat × Nat × Nat)
    (h : dateSearch s.data = some t) (tz1 tz2 now1 now2 : Int) :
    formatDate tz1 (parseDate s now1) = formatDate tz2 (parseDate s now2) := by
  obtain ⟨d, m, y⟩ := t
  simp only [parseDate, parseDateMs, h]
  rfl

/-- Witness for C5: the same token under two time zones and two ambient
clocks renders identically, and to the expected `en-US` string. -/
theorem c5_witness :
    formatDate 540 (parseDate "05/01/2025" 111)
      = formatDate (-420) (parseDate "05/01/2025" 222)
    ∧ formatDate 540 (parseDate "05/01/2025" 111) = "January 5, 2025" := by
  refine ⟨c5_format_parse_stable "05/01/2025" (5, 1, 2025) (by decide)
    540 (-420) 111 222, ?_⟩
  decide

/-! ### C6 — slugify -/

theorem mem_dropWhile_of_not {α : Type} {p : α → Bool} {d : α} :
    ∀ {l : List α}, d ∈ l → p d = false → d ∈ l.dropWhile p := by
  intro l
  induction l with
  | nil => intro h _; exact absurd h (List.not_mem_nil d)
  | cons x xs ih =>
    intro hmem hpd
    cases hx : p x with
    | true =>
      rcases List.mem_cons.mp hmem with hdx | hdm
      · rw [hdx] at hpd
        rw [hpd] at hx
        exact absurd hx (by simp)
      · simpa [List.dropWhile, hx] using ih hdm hpd
    | false => simpa [List.dropWhile, hx] using hmem

theorem mem_collapseRun {d : Char} (hd : isSlugChar d = true) :
    ∀ (b : Bool) (l : List Char), d ∈ l → d ∈ collapseRun b l
  | _, [], hmem => absurd hmem (List.not_mem_nil d)
  | b, c :: rest, hmem => by
    rw [collapseRun]
    by_cases hc : isSlugChar c = true
    · rw [if_pos hc]
      rcases List.mem_cons.mp hmem with h1 | h2
      · exact h1 ▸ List.mem_cons_self _ _
      · exact List.mem_cons_of_mem _ (mem_collapseRun hd false rest h2)
    · rw [if_neg hc]
      have hdm : d ∈ rest := by
        rcases List.mem_cons.mp hmem with h1 | h2
        · exact absurd (h1 ▸ hd) hc
        · exact h2
      cases b with
      | true =>
        rw [if_pos rfl]
        exact mem_collapseRun hd true rest hdm
      | false =>
        rw [if_neg (by simp)]
        exact List.mem_cons_of_mem _ (mem_collapseRun hd true rest hdm)

theorem stripHyphens_ne_nil {d : Char} {l : List Char}
    (hmem : d ∈ l) (hd : d ≠ '-') : stripHyphens l ≠ [] := by
  have h1 : d ∈ l.dropWhile (fun c => c = '-') :=
    mem_dropWhile_of_not hmem (by simpa using hd)
  have h2 : d ∈ (l.dropWhile (fun c => c = '-')).reverse.dropWhile
      (fun c => c = '-') :=
    mem_dropWhile_of_not (List.mem_reverse.mpr h1) (by simpa using hd)
  rw [stripHyphens]
  intro habs
  rw [List.reverse_eq_nil_iff] at habs
  rw [habs] at h2
  exact absurd h2 (List.not_mem_nil d)

theorem take50_ne_nil {l : List Char} (h : l ≠ []) : l.take 50 ≠ [] := by
  cases l with
  | nil => exact absurd rfl h
  | cons c cs => simp

theorem jsLowerChar_slug_of_alnum {c : Char} (h : isAsciiAlnum c = true) :
    ∃ d ∈ jsLowerChar c, isSlugChar d = true := by
  simp only [isAsciiAlnum, decide_eq_true_eq] at h
  rw [jsLowerChar]
  by_cases hAZ : 65 ≤ c.toNat ∧ c.toNat ≤ 90
  · rw [if_pos hAZ]
    refine ⟨Char.ofNat (c.toNat + 32), by simp, ?_⟩
    have hv : (c.toNat + 32).isValidChar := Or.inl (by omega)
    simp only [isSlugChar, decide_eq_true_eq]
    rw [char_toNat_ofNat hv]
    omega
  · rw [if_neg hAZ, if_neg (by omega), if_neg (by omega)]
    refine ⟨c, by simp, ?_⟩
    simp only [isSlugChar, decide_eq_true_eq]
    omega

/-- A headline containing an ASCII alphanumeric character slugifies to a
non-empty string: its lower-cased image survives the hyphen collapse, the
hyphen stripping and the 50-character truncation. -/
theorem createSlug_ne_empty {t : String} {c : Char}
    (hmem : c ∈ t.data) (hc : isAsciiAlnum c = true) :
    createSlug t ≠ "" := by
  obtain ⟨d, hdmem, hd⟩ := jsLowerChar_slug_of_alnum hc
  have hflat : d ∈ t.data.flatMap jsLowerChar :=
    List.mem_flatMap.mpr ⟨c, hmem, hdmem⟩
  have hcol : d ∈ collapseNonSlug (t.data.flatMap jsLowerChar) :=
    mem_collapseRun hd false _ hflat
  have hdne : d ≠ '-' := by
    intro he
    rw [he] at hd
    exact absurd hd (by decide)
  have htake := take50_ne_nil (stripHyphens_ne_nil hcol hdne)
  rw [createSlug]
  intro habs
  exact htake (congrArg String.data habs)

theorem flatMap_jsLower_id :
    ∀ l : List Char,
      (∀ c ∈ l, isAsciiAlnum c = false ∧ c.toNat ≠ 0x212A
        ∧ c.toNat ≠ 0x0130) →
      l.flatMap jsLowerChar = l
  | [], _ => rfl
  | c :: rest, h => by
    have hc := h c (by simp)
    have h1 : ¬ (65 ≤ c.toNat ∧ c.toNat ≤ 90) := by
      have h0 := hc.1
      simp only [isAsciiAlnum, decide_eq_false_iff_not] at h0
      exact fun hAZ => h0 (Or.inl hAZ)
    have hlc : jsLowerChar c = [c] := by
      rw [jsLowerChar, if_neg h1, if_neg hc.2.1, if_neg hc.2.2]
    rw [List.flatMap_cons, hlc,
      flatMap_jsLower_id rest (fun x hx => h x (List.mem_cons_of_mem c hx))]
    rfl

theorem collapseRun_true_all_nonslug :
    ∀ l : List Char, (∀ c ∈ l, isSlugChar c = false) →
      collapseRun true l = []
  | [], _ => rfl
  | c :: rest, h => by
    rw [collapseRun,
      if_neg (by simp [h c (by simp)] : ¬ isSlugChar c = true), if_pos rfl]
    exact collapseRun_true_all_nonslug rest
      (fun x hx => h x (List.mem_cons_of_mem c hx))

theorem collapseNonSlug_all_nonslug :
    ∀ l : List Char, (∀ c ∈ l, isSlugChar c = false) →
      collapseNonSlug l = if l = [] then [] else ['-'] := by
  intro l h
  cases l with
  | nil => rfl
  | cons c rest =>
    rw [collapseNonSlug, collapseRun,
      if_neg (by simp [h c (by simp)] : ¬ isSlugChar c = true),
      if_neg (by simp),
      collapseRun_true_all_nonslug rest
        (fun x hx => h x (List.mem_cons_of_mem c hx))]
    simp

/-- C6 counterexample: the string consisting of U+212A KELVIN SIGN
contains no ASCII alphanumeric character, yet `toLowerCase` maps the
Kelvin sign to `k`, so `createSlug` returns `"k"` rather than the empty
string the claim demands. -/
theorem c6_counterexample :
    (∀ c ∈ (String.mk [Char.ofNat 0x212A]).data, isAsciiAlnum c = false)
    ∧ createSlug (String.mk [Char.ofNat 0x212A]) = "k"
    ∧ createSlug (String.mk [Char.ofNat 0x212A]) ≠ "" := by decide

/-- C6 (amended): the three concrete equations hold, and `createSlug`
returns the empty string for every input containing no ASCII alphanumeric
character and none of the two code points whose Unicode lowercase mapping
produces an ASCII alphanumeric (U+212A KELVIN SIGN, which lowercases to
`k`, and U+0130 LATIN CAPITAL LETTER I WITH DOT ABOVE, which lowercases to
`i` + U+0307). -/
theorem c6_slugify :
    createSlug "Hello, World!" = "hello-world"
    ∧ createSlug "" = ""
    ∧ createSlug "  ---  " = ""
    ∧ ∀ s : String,
        (∀ c ∈ s.data, isAsciiAlnum c = false
          ∧ c.toNat ≠ 0x212A ∧ c.toNat ≠ 0x0130) →
        createSlug s = "" := by
  refine ⟨by decide, by decide, by decide, ?_⟩
  intro s hs
  rw [createSlug, flatMap_jsLower_id s.data hs]
  have hnon : ∀ c ∈ s.data, isSlugChar c = false := by
    intro c hcm
    have h0 := (hs c hcm).1
    simp only [isAsciiAlnum, decide_eq_false_iff_not] at h0
    simp only [isSlugChar, decide_eq_false_iff_not]
    intro hslug
    rcases hslug with hx | hx
    · exact h0 (Or.inr (Or.inl hx))
    · exact h0 (Or.inr (Or.inr hx))
  rw [collapseNonSlug_all_nonslug s.data hnon]
  by_cases hd : s.data = []
  · rw [if_pos hd]
    decide
  · rw [if_neg hd]
    decide

/-- Witness for C6: a string of a space and an exclamation mark (no
alphanumerics, no exceptional code points) slugifies to the empty
string. -/
theorem c6_witness : createSlug (String.mk [' ', '!']) = "" :=
  c6_slugify.2.2.2 (String.mk [' ', '!']) (by decide)

/-! ### C8 — placeholder defaults and segment independence -/

theorem headlineScan_none :
    ∀ seg : List Char, containsCI "headline:".data seg = false →
      headlineScan seg = none
  | [], _ => rfl
  | c :: rest, h => by
    rw [containsCI] at h
    simp only [Bool.or_eq_false_iff] at h
    rw [headlineScan]
    simp only [h.1, Bool.false_eq_true, if_false]
    exact headlineScan_none rest h.2

theorem bodyScan_none :
    ∀ seg : List Char, containsCI "body:".data seg = false →
      bodyScan seg = none
  | [], _ => rfl
  | c :: rest, h => by
    rw [containsCI] at h
    simp only [Bool.or_eq_false_iff] at h
    rw [bodyScan]
    simp only [h.1, Bool.false_eq_true, if_false]
    exact bodyScan_none rest h.2

theorem authorScan_none :
    ∀ seg : List Char, containsCI "author:".data seg = false →
      authorScan seg = none
  | [], _ => rfl
  | c :: rest, h => by
    rw [containsCI] at h
    simp only [Bool.or_eq_false_iff] at h
    rw [authorScan]
    simp only [h.1, Bool.false_eq_true, if_false]
    exact authorScan_none rest h.2

/-- C8: every field whose marker is absent from its segment defaults to
its named placeholder (`No headline` / `No content available` / `Unknown
author`); and concretely, parsing `docA` (whose first segment lacks the
`Body:` marker, as the fourth conjunct checks) gives that segment the body
placeholder while emitting for the second segment exactly the record that
the fully well-formed `docB` yields. -/
theorem c8_missing_marker_defaults :
    (∀ seg : List Char, containsCI "headline:".data seg = false →
        headlineOf seg = "No headline")
    ∧ (∀ seg : List Char, containsCI "body:".data seg = false →
        bodyOf seg = "No content available")
    ∧ (∀ seg : List Char, containsCI "author:".data seg = false →
        authorOf seg = "Unknown author")
    ∧ (collectNews docA.data).map (fun p => containsCI "body:".data p.2)
        = [false, true]
    ∧ (parseGoogleDocArticles 7 witnessIdGen witnessImageOf docA.data)[1]?
        = (parseGoogleDocArticles 7 witnessIdGen witnessImageOf docB.data)[1]?
    ∧ ((parseGoogleDocArticles 7 witnessIdGen witnessImageOf
          docA.data)[0]?).map (fun r => r.body)
        = some "No content available" := by
  refine ⟨?_, ?_, ?_, by decide, by decide, by decide⟩
  · intro seg h
    rw [headlineOf, headlineScan_none seg h]
  · intro seg h
    rw [bodyOf, bodyScan_none seg h]
  · intro seg h
    rw [authorOf, authorScan_none seg h]

/-- Witness for C8: a segment with no markers at all yields all three
placeholders. -/
theorem c8_witness :
    headlineOf "nothing here".data = "No headline"
    ∧ bodyOf "nothing here".data = "No content available"
    ∧ authorOf "nothing here".data = "Unknown author" := by
  have h := c8_missing_marker_defaults
  exact ⟨h.1 _ (by decide), h.2.1 _ (by decide), h.2.2.1 _ (by decide)⟩

/-! ### C2 — one record per header, sorted, slugged -/

theorem mem_parse_articles {r : Article} {now : Int} {idGen : Nat → String}
    {imageOf : String → String} {text : List Char}
    (h : r ∈ parseGoogleDocArticles now idGen imageOf text) :
    ∃ p : Nat × (List Char × List Char),
      r = articleOfSegment now (idGen p.1) (imageOf (headlineOf p.2.2)) p.2 := by
  rw [parseGoogleDocArticles] at h
  obtain ⟨p, _, hp⟩ := List.mem_map.mp (mem_sortDateDesc.mp h)
  exact ⟨p, hp.symm⟩

/-- C2 (amended): for every flattened document text the parser emits
exactly one record per well-formed `News k (date):` header match, the
emitted sequence is sorted descending by parsed date, every record's slug
is `createSlug` of its headline, and that slug is non-empty whenever the
headline contains an ASCII alphanumeric character (in particular whenever
any extraction placeholder was used). -/
theorem c2_parser_records (text : List Char) (now : Int)
    (idGen : Nat → String) (imageOf : String → String) :
    (parseGoogleDocArticles now idGen imageOf text).length
        = (collectNews text).length
    ∧ List.Chain' (fun x y => y.date ≤ x.date)
        (parseGoogleDocArticles now idGen imageOf text)
    ∧ (∀ r ∈ parseGoogleDocArticles now idGen imageOf text,
        r.slug = createSlug r.headline)
    ∧ ∀ r ∈ parseGoogleDocArticles now idGen imageOf text,
        (∃ c ∈ r.headline.data, isAsciiAlnum c = true) → r.slug ≠ "" := by
  refine ⟨?_, sortDateDesc_sorted _, ?_, ?_⟩
  · rw [parseGoogleDocArticles, (sortDateDesc_perm _).length_eq,
      List.length_map, List.enum_length]
  · intro r hr
    obtain ⟨p, hp⟩ := mem_parse_articles hr
    rw [hp]
    rfl
  · intro r hr hex
    obtain ⟨c, hcm, hc⟩ := hex
    have hslug : r.slug = createSlug r.headline := by
      obtain ⟨p, hp⟩ := mem_parse_articles hr
      rw [hp]
      rfl
    rw [hslug]
    exact createSlug_ne_empty hcm hc

/-- C2 counterexample: `docNoSlug` has exactly one well-formed header, but
its single emitted record has an empty slug (its captured headline is
empty), refuting "every emitted record has a non-empty slug". -/
theorem c2_counterexample :
    (collectNews docNoSlug.data).length = 1
    ∧ (parseGoogleDocArticles 0 witnessIdGen witnessImageOf
        docNoSlug.data).map (fun r => r.slug) = [""] := by decide

/-- Witness for C2 on the specification's end-to-end document. -/
theorem c2_witness :
    (parseGoogleDocArticles 0 witnessIdGen witnessImageOf doc1.data).length
        = (collectNews doc1.data).length
    ∧ doc1Article.slug ≠ "" := by
  have h := c2_parser_records doc1.data 0 witnessIdGen witnessImageOf
  exact ⟨h.1, h.2.2.2 doc1Article (by decide) ⟨'S', by decide, by decide⟩⟩

/-! ### C3 — headline extraction -/

theorem image_data_eq : "image:".data = ['i', 'm', 'a', 'g', 'e', ':'] := rfl

/-- A pattern starting with a lower-case ASCII letter never matches (even
case-insensitively) at a whitespace character. -/
theorem startsWithCI_not_ws {p : Char} {ps l : List Char} {c : Char}
    (hp : 97 ≤ p.toNat ∧ p.toNat ≤ 122) (hw : jsWhitespace c = true) :
    startsWithCI (p :: ps) (c :: l) = false := by
  rw [startsWithCI]
  have hne : ¬ p = asciiLowerChar c := by
    intro he
    have h1 : (asciiLowerChar c).toNat = p.toNat := by rw [he]
    rw [asciiLowerChar] at h1
    by_cases hAZ : 65 ≤ c.toNat ∧ c.toNat ≤ 90
    · simp only [jsWhitespace, decide_eq_true_eq] at hw
      omega
    · rw [if_neg hAZ] at h1
      simp only [jsWhitespace, decide_eq_true_eq] at hw
      omega
  simp [hne]

theorem takeToImageCI_of_imageHere :
    ∀ l : List Char, imageHereCI l = true →
      takeToImageCI l = l.takeWhile jsWhitespace
  | [], h => by simp [imageHereCI, startsWithCI] at h
  | c :: rest, h => by
    rw [takeToImageCI]
    by_cases hw : jsWhitespace c = true
    · have hsw : startsWithCI "image:".data (c :: rest) = false := by
        rw [image_data_eq]
        exact startsWithCI_not_ws (by decide) hw
      simp only [hsw, Bool.false_eq_true, if_false]
      have hrest : imageHereCI rest = true := by
        rw [imageHereCI, List.dropWhile_cons, if_pos hw] at h
        exact h
      rw [takeToImageCI_of_imageHere rest hrest, List.takeWhile_cons,
        if_pos hw]
    · have hsw : startsWithCI "image:".data (c :: rest) = true := by
        rw [imageHereCI, List.dropWhile_cons, if_neg hw] at h
        exact h
      simp only [hsw, if_true, List.takeWhile_cons, if_neg hw]

theorem hlCapture_of_noCRLF :
    ∀ l : List Char, (∀ c ∈ l, c.toNat ≠ 10 ∧ c.toNat ≠ 13) →
      ∃ cap w, hlCapture l = some cap
        ∧ takeToImageCI l = cap ++ w
        ∧ ∀ c ∈ w, jsWhitespace c = true
  | [], _ => ⟨[], [], rfl, rfl, by simp⟩
  | c :: rest, h => by
    by_cases himg : imageHereCI (c :: rest) = true
    · refine ⟨[], (c :: rest).takeWhile jsWhitespace, ?_, ?_, ?_⟩
      · rw [hlCapture, if_pos himg]
      · rw [takeToImageCI_of_imageHere _ himg]
        rfl
      · intro x hx
        exact List.mem_takeWhile_imp hx
    · obtain ⟨cap, w, hc, ht, hw⟩ := hlCapture_of_noCRLF rest
        (fun x hx => h x (List.mem_cons_of_mem c hx))
      have hcnl := h c (by simp)
      refine ⟨c :: cap, w, ?_, ?_, hw⟩
      · rw [hlCapture, if_neg himg, if_neg (by omega), hc]
      · have hsw : startsWithCI "image:".data (c :: rest) = false := by
          by_cases hwc : jsWhitespace c = true
          · rw [image_data_eq]
            exact startsWithCI_not_ws (by decide) hwc
          · cases hx : startsWithCI "image:".data (c :: rest) with
            | false => rfl
            | true =>
              exfalso
              apply himg
              rw [imageHereCI, List.dropWhile_cons, if_neg hwc]
              exact hx
        rw [takeToImageCI, if_neg (by simp [hsw]), ht, List.cons_append]

theorem takeToImageCI_ws_append :
    ∀ (w rest : List Char), (∀ c ∈ w, jsWhitespace c = true) →
      takeToImageCI (w ++ rest) = w ++ takeToImageCI rest
  | [], rest, _ => rfl
  | c :: w', rest, h => by
    simp only [List.cons_append, takeToImageCI, List.append_eq]
    have hsw : startsWithCI "image:".data (c :: (w' ++ rest)) = false := by
      rw [image_data_eq]
      exact startsWithCI_not_ws (by decide) (h c (by simp))
    rw [if_neg (by simp [hsw]),
      takeToImageCI_ws_append w' rest
        (fun x hx => h x (List.mem_cons_of_mem c hx))]

theorem dropWhile_ws_append (w l : List Char)
    (h : ∀ c ∈ w, jsWhitespace c = true) :
    (w ++ l).dropWhile jsWhitespace = l.dropWhile jsWhitespace := by
  induction w with
  | nil => rfl
  | cons c w' ih =>
    rw [List.cons_append, List.dropWhile_cons, if_pos (h c (by simp))]
    exact ih (fun x hx => h x (List.mem_cons_of_mem c hx))

theorem trimWs_ws_append {w : List Char} (x : List Char)
    (h : ∀ c ∈ w, jsWhitespace c = true) : trimWs (w ++ x) = trimWs x := by
  rw [trimWs, trimWs, dropWhile_ws_append w x h]

theorem trimWs_append_ws {w : List Char} (x : List Char)
    (h : ∀ c ∈ w, jsWhitespace c = true) : trimWs (x ++ w) = trimWs x := by
  rw [trimWs, trimWs, List.dropWhile_append]
  by_cases hempty : (x.dropWhile jsWhitespace).isEmpty = true
  · rw [if_pos hempty, List.dropWhile_eq_nil_iff.mpr h,
      List.isEmpty_iff.mp hempty]
  · rw [if_neg hempty, List.reverse_append,
      dropWhile_ws_append w.reverse _
        (fun c hc => h c (List.mem_reverse.mp hc))]

/-- C3 (amended): on every segment free of newline and carriage-return
characters, the emitted headline equals the segment text from just after
the (case-insensitively matched) `Headline:` marker up to the start of the
`Image:` marker if one follows or to the end of the segment otherwise,
trimmed — i.e. the code agrees with `specHeadline`, the claim's described
extraction.  (A newline can make the `[^\n\r]*?` capture fail, see the
counterexample.) -/
theorem c3_headline_no_crlf :
    ∀ seg : List Char, (∀ c ∈ seg, c.toNat ≠ 10 ∧ c.toNat ≠ 13) →
      headlineOf seg = specHeadline seg
  | [], _ => rfl
  | c :: rest, h => by
    by_cases hsw : startsWithCI "headline:".data (c :: rest) = true
    · have hnoA : ∀ x ∈ ((c :: rest).drop 9).dropWhile jsWhitespace,
          x.toNat ≠ 10 ∧ x.toNat ≠ 13 := fun x hx =>
        h x (List.drop_subset 9 _ ((List.dropWhile_sublist _).subset hx))
      obtain ⟨cap, w, hc, ht, hw⟩ :=
        hlCapture_of_noCRLF (((c :: rest).drop 9).dropWhile jsWhitespace) hnoA
      have hOf : headlineOf (c :: rest) = String.mk (trimWs cap) := by
        rw [headlineOf, headlineScan, if_pos hsw, hc]
      have hafter : afterFirstCI "headline:".data (c :: rest)
          = some ((c :: rest).drop 9) := by
        rw [afterFirstCI, if_pos hsw]
        rfl
      have hsplitImg : takeToImageCI ((c :: rest).drop 9)
          = ((c :: rest).drop 9).takeWhile jsWhitespace
            ++ takeToImageCI (((c :: rest).drop 9).dropWhile jsWhitespace) := by
        conv_lhs => rw [← List.takeWhile_append_dropWhile jsWhitespace
          ((c :: rest).drop 9)]
        exact takeToImageCI_ws_append _ _
          (fun x hx => List.mem_takeWhile_imp hx)
      have hSpec : specHeadline (c :: rest)
          = String.mk (trimWs (takeToImageCI ((c :: rest).drop 9))) := by
        rw [specHeadline, hafter]
      rw [hOf, hSpec, hsplitImg, ht,
        trimWs_ws_append _ (fun x hx => List.mem_takeWhile_imp hx),
        trimWs_append_ws _ hw]
    · have hOf : headlineOf (c :: rest) = headlineOf rest := by
        rw [headlineOf, headlineOf, headlineScan, if_neg hsw]
      have hSpec : specHeadline (c :: rest) = specHeadline rest := by
        rw [specHeadline, specHeadline, afterFirstCI, if_neg hsw]
      rw [hOf, hSpec]
      exact c3_headline_no_crlf rest
        (fun x hx => h x (List.mem_cons_of_mem c hx))

/-- C3 counterexample: the segment `"Headline: a\nb"` contains the
`Headline:` marker, and the claim's extraction yields `"a\nb"` (up to the
end of the segment, trimmed); but the capture class `[^\n\r]*?` cannot
cross the newline and the alternative `\s*Image:`/`$` never matches, so
the regex fails and the code emits the placeholder instead. -/
theorem c3_counterexample :
    containsCI "headline:".data "Headline: a\nb".data = true
    ∧ specHeadline "Headline: a\nb".data = "a\nb"
    ∧ headlineOf "Headline: a\nb".data = "No headline"
    ∧ headlineOf "Headline: a\nb".data ≠ specHeadline "Headline: a\nb".data := by
  decide

/-- Witness for C3 at a newline-free segment with an `Image:` marker. -/
theorem c3_witness :
    headlineOf " Headline: abc  Image: x".data
      = specHeadline " Headline: abc  Image: x".data
    ∧ specHeadline " Headline: abc  Image: x".data = "abc" :=
  ⟨c3_headline_no_crlf _ (by decide), by decide⟩

end NewsFeed
